import Mathlib

/-
Verification development for the pkpt benchmark service.

The program under study is a small HTTP benchmark engine:
  api/run.py        - input validation, cached matrix generation, chunk
                      planning, the elementwise kernel, sequential/pooled
                      dispatch, the repeated-timing harness and the
                      speedup/efficiency metrics;
  api/clear_cache.py - the administrative cache-clear endpoint.

The Python code is shallowly embedded below.  Machine floats are modelled
with exact scalars (a generic scalar type for the kernel, rationals for
timings), Python dicts with association lists, and the thread pool with an
explicit task-completion order.  Wall-clock readings, which are inherently
nondeterministic, enter the model as an explicit oracle argument
(`elapsed`), so every definition stays a pure function of its inputs.
-/

/- ===================== ConfigValidator (run.py lines 69-74) ============ -/

/-- Raw JSON field values as they reach `_clamp_int`: a missing field
(`data.get` returns Python `None`), a JSON integer, a JSON non-integral
number, or a string. -/
inductive RawValue
  | none
  | int (i : ℤ)
  | float (q : ℚ)
  | str (s : String)
deriving DecidableEq

/-- Value of a decimal digit character, `Option.none` for any other
character. -/
def digitVal (c : Char) : Option ℕ :=
  if '0' ≤ c ∧ c ≤ '9' then some (c.toNat - Char.toNat '0') else Option.none

/-- Accumulating decimal parser over a character list; fails on the first
non-digit, and fails on an empty digit sequence (accumulator still
`Option.none`). -/
def parseDigits : List Char → Option ℕ → Option ℕ
  | [], acc => acc
  | c :: cs, acc =>
    match digitVal c, acc with
    | some d, some a => parseDigits cs (some (a * 10 + d))
    | some d, Option.none => parseDigits cs (some d)
    | Option.none, _ => Option.none

/-- Model of Python `int(s)` on a string: an optional sign followed by one
or more decimal digits; anything else (for example a string holding a
decimal point) raises, modelled as `Option.none`. -/
def pyStrToInt (s : String) : Option ℤ :=
  match s.data with
  | '-' :: cs => (parseDigits cs Option.none).map (fun v => -(v : ℤ))
  | '+' :: cs => (parseDigits cs Option.none).map (fun v => (v : ℤ))
  | cs => (parseDigits cs Option.none).map (fun v => (v : ℤ))

/-- Python `int(float)` truncates toward zero; on a rational `num/den`
(with positive denominator) this is the truncating integer division of the
numerator by the denominator. -/
def pyTrunc (q : ℚ) : ℤ := Int.tdiv q.num (q.den : ℤ)

/-- Model of Python `int(x)` as used in `_clamp_int`: `None` raises,
an int is returned unchanged, a float is truncated toward zero, and a
string is parsed as an integer literal or raises. -/
def pyInt : RawValue → Option ℤ
  | RawValue.none => Option.none
  | RawValue.int i => some i
  | RawValue.float q => some (pyTrunc q)
  | RawValue.str s => pyStrToInt s

/-- Embedding of `_clamp_int` (run.py lines 69-74): `int(x)` under
`try/except` returning `default` on failure, then `max(lo, min(hi, v))`. -/
def _clamp_int (x : RawValue) (lo hi default : ℤ) : ℤ :=
  match pyInt x with
  | Option.none => default
  | some v => max lo (min hi v)

/- ===================== ChunkPlanner (run.py lines 38-39) =============== -/

/-- Loop body of the list comprehension
`[(i, min(i + chunk, n)) for i in range(0, n, chunk)]`: starting at row
`i`, emit `(i, min (i + c) n)` and advance by `c` while `i < n`.  The
`fuel` argument makes the recursion structural; any `fuel ≥ n - i`
reproduces the Python loop exactly because `i` advances by `c ≥ 1` each
iteration. -/
def rangesAux (n c : ℕ) : ℕ → ℕ → List (ℕ × ℕ)
  | _, 0 => []
  | i, fuel + 1 =>
    if i < n then (i, min (i + c) n) :: rangesAux n c (i + c) fuel else []

/-- Embedding of the chunk plan of `_run_once` (run.py lines 38-39):
`chunk = max(1, min(chunk_size, n))` followed by the comprehension over
`range(0, n, chunk)`. -/
def planRanges (n chunk_size : ℕ) : List (ℕ × ℕ) :=
  let chunk := max 1 (min chunk_size n)
  rangesAux n chunk 0 n

/- ===================== KernelExecutor (run.py lines 27-32) ============= -/

/-- Matrices are modelled as total functions from (row, column) indices to
a scalar; only the `n × n` prefix of a cached buffer is ever touched by
the code, so totality is harmless. -/
def Mat (α : Type) : Type := ℕ → ℕ → α

/-- The elementwise scalar operations used by the kernel
(`np.multiply`, `+`, `-`, `np.sin`, `np.sqrt`, `np.abs`), abstracted over
the scalar type so that the embedding stays computable; the float32
semantics of numpy is one instance. -/
structure KernelOps (α : Type) where
  mul : α → α → α
  add : α → α → α
  sub : α → α → α
  sin : α → α
  sqrt : α → α
  abs : α → α

/-- In-place write of `f` into rows `[lo, hi)` of `OUT`, leaving every
other row of `OUT` unchanged; this is the effect of one numpy statement
with output slice `OUT[lo:hi]`. -/
def writeRows {α : Type} (lo hi : ℕ) (f : ℕ → ℕ → α) (OUT : Mat α) : Mat α :=
  fun r c => if lo ≤ r ∧ r < hi then f r c else OUT r c

/-- Embedding of `_kernel_chunk` (run.py lines 27-32) as its three
sequential in-place numpy statements on the slice `[i0, i1)`:
`np.multiply(a, b, out=OUT[i0:i1])`, then `OUT[i0:i1] += np.sin(a)`,
then `OUT[i0:i1] -= np.sqrt(np.abs(b))`.  `A` and `B` are only read, and
the returned buffer is the only thing written. -/
def _kernel_chunk {α : Type} (ops : KernelOps α) (A B OUT : Mat α)
    (i0 i1 : ℕ) : Mat α :=
  let o1 := writeRows i0 i1 (fun r c => ops.mul (A r c) (B r c)) OUT
  let o2 := writeRows i0 i1 (fun r c => ops.add (o1 r c) (ops.sin (A r c))) o1
  writeRows i0 i1 (fun r c => ops.sub (o2 r c) (ops.sqrt (ops.abs (B r c)))) o2

/-- The specified per-element kernel value
`A[r,c]*B[r,c] + sin(A[r,c]) - sqrt(abs(B[r,c]))`. -/
def kernelFormula {α : Type} (ops : KernelOps α) (A B : Mat α) (r c : ℕ) : α :=
  ops.sub (ops.add (ops.mul (A r c) (B r c)) (ops.sin (A r c)))
    (ops.sqrt (ops.abs (B r c)))

/- ===================== ParallelDispatcher (run.py lines 43-51) ========= -/

/-- Sequential branch of `_run_once` (`threads <= 1`): apply the kernel to
every range in list order on the calling thread. -/
def seqDispatch {α : Type} (ops : KernelOps α) (A B OUT : Mat α)
    (ranges : List (ℕ × ℕ)) : Mat α :=
  ranges.foldl (fun O p => _kernel_chunk ops A B O p.1 p.2) OUT

/-- Pooled branch of `_run_once` (`threads > 1`): one task per range,
executed by the worker pool.  Each task fully overwrites its own row
slice from `A` and `B` alone, so the pool's effect on `OUT` is captured
by executing the tasks in their (arbitrary) completion order `order`,
a permutation of the submission list. -/
def pooledDispatch {α : Type} (ops : KernelOps α) (A B OUT : Mat α)
    (order : List (ℕ × ℕ)) : Mat α :=
  order.foldl (fun O p => _kernel_chunk ops A B O p.1 p.2) OUT

/-- Pool size chosen by `_run_once` line 47: `min(threads, len(ranges))`. -/
def poolWorkers (threads : ℤ) (ranges : List (ℕ × ℕ)) : ℤ :=
  min threads (ranges.length : ℤ)

/-- Buffer contents produced by one pass of `_run_once` (lines 43-51):
the sequential loop when `threads <= 1`, otherwise the pooled path with
task-completion order `order`. -/
def runOnceOut {α : Type} (ops : KernelOps α) (A B OUT : Mat α)
    (ranges order : List (ℕ × ℕ)) (threads : ℤ) : Mat α :=
  if threads ≤ 1 then seqDispatch ops A B OUT ranges
  else pooledDispatch ops A B OUT order

/-- Row `r` is covered by some half-open range of the plan. -/
def rowCovered (ranges : List (ℕ × ℕ)) (r : ℕ) : Bool :=
  ranges.any (fun p => decide (p.1 ≤ r ∧ r < p.2))

/- ===================== ArrayCache (run.py lines 11-24) ================= -/

/-- Deterministic stand-in for one draw of
`np.random.default_rng(42).standard_normal`: a fixed integer-valued hash
of the draw index.  The exact PCG64 bit-stream is irrelevant to every
claim; what matters, and what this models, is that the generator is a
fixed function seeded with the hard-coded constant 42, so the k-th draw
is a deterministic function of k alone. -/
def draw (k : ℕ) : ℤ :=
  ((k + 42) * 2654435761 % 4294967296 : ℕ) - 2147483648

/-- An `n × n` matrix of consecutive draws starting at draw index
`offset`, stored row-major as a list of rows. -/
def genMat (n offset : ℕ) : List (List ℤ) :=
  (List.range n).map (fun i => (List.range n).map (fun j => draw (offset + i * n + j)))

/-- The cached `(A, B, OUT)` triple for one matrix dimension. -/
structure MatrixTriple where
  A : List (List ℤ)
  B : List (List ℤ)
  OUT : List (List ℤ)
deriving DecidableEq

/-- Generation performed on a cache miss in `_get_arrays` (run.py lines
19-22): `A` from the first `n*n` draws of the fixed-seed generator, `B`
from the next `n*n` draws, and an output buffer of the same shape
(`np.empty` contents are unspecified; modelled as zeros - the kernel
fully overwrites them before any read). -/
def genTriple (n : ℕ) : MatrixTriple :=
  { A := genMat n 0
    B := genMat n (n * n)
    OUT := (List.range n).map (fun _ => (List.range n).map (fun _ => 0)) }

/-- The `_ARRAY_CACHE` dict of run.py, modelled as an association list
from matrix dimension to triple (newest entry first). -/
abbrev ArrayCache : Type := List (ℕ × MatrixTriple)

/-- Python `n in cache` / `cache[n]`: first entry with the given key. -/
def cacheLookup : ArrayCache → ℕ → Option MatrixTriple
  | [], _ => Option.none
  | (m, t) :: rest, n => if m = n then some t else cacheLookup rest n

/-- Embedding of `_get_arrays` (run.py lines 15-24).  The whole body runs
under `_ARRAY_CACHE_LOCK`, so concurrent calls are serialized and the
function is adequately modelled as an atomic state transition
`cache → (triple, new cache, generated?)`; the boolean records whether
this call generated fresh matrices (a memoization event) or returned the
stored triple. -/
def _get_arrays (cache : ArrayCache) (n : ℕ) : MatrixTriple × ArrayCache × Bool :=
  match cacheLookup cache n with
  | some t => (t, cache, false)
  | Option.none => (genTriple n, (n, genTriple n) :: cache, true)

/- ============== Module-level state and clear_cache handler ============= -/

/-- Process state relevant to the cache claims.  Crucially, run.py line 12
and clear_cache.py line 7 each execute `_ARRAY_CACHE = {}` at the top of
their own module, so the process holds two distinct dictionaries (module
globals are per-module in Python, the comment `Shared cache with run.py`
notwithstanding); the field names record which module owns which dict. -/
structure ServerState where
  runArrayCache : ArrayCache
  clearArrayCache : ArrayCache
deriving DecidableEq

/-- The success message of the clear endpoint. -/
def clearedMsg : String := "Cache cleared"

/-- Embedding of `do_POST` of clear_cache.py (lines 18-34) on the matched
path: `_ARRAY_CACHE.clear()` on clear_cache.py's own module dict,
followed by a 200 response; it never touches run.py's dict. -/
def clear_cache_do_POST (s : ServerState) : ServerState × ℕ × String :=
  ({ s with clearArrayCache := [] }, 200, clearedMsg)

/-- The `_get_arrays` call made by a benchmark pass, acting on run.py's
module dict inside the process state. -/
def runGetArrays (s : ServerState) (n : ℕ) : MatrixTriple × ServerState × Bool :=
  match _get_arrays s.runArrayCache n with
  | (t, c, g) => (t, { s with runArrayCache := c }, g)

/- ============ BenchmarkRunner and statistics (run.py lines 56-66) ====== -/

/-- Python `statistics.median`: sort, take the middle element for odd
length, the mean of the two middle elements for even length.
(`statistics.median` raises on an empty list; the handler only calls it
with `repeats ≥ 1` samples, so the junk value 0 returned here on `[]` is
never exercised.) -/
def pymedian (xs : List ℚ) : ℚ :=
  let s := xs.insertionSort (· ≤ ·)
  let m := s.length
  if m % 2 = 1 then s.getD (m / 2) 0
  else (s.getD (m / 2 - 1) 0 + s.getD (m / 2) 0) / 2

/-- Python `min` over a nonempty list (junk value 0 on `[]`, never
exercised). -/
def pyListMin : List ℚ → ℚ
  | [] => 0
  | x :: r => r.foldl min x

/-- Python `max` over a nonempty list (junk value 0 on `[]`, never
exercised). -/
def pyListMax : List ℚ → ℚ
  | [] => 0
  | x :: r => r.foldl max x

/-- The dict returned by `_benchmark` (run.py lines 60-66). -/
structure BenchResult where
  times : List ℚ
  median : ℚ
  min : ℚ
  max : ℚ
  repeats : ℤ
deriving DecidableEq

/-- Arguments of one `_run_once` invocation, recorded so that theorems can
speak about which passes a benchmark run performs. -/
structure PassCall where
  threads : ℤ
  chunk_size : ℤ
  matrix_size : ℤ
deriving DecidableEq

/-- Embedding of `_benchmark` (run.py lines 56-66).  `elapsed j` is the
wall-clock reading returned by the j-th `_run_once` call of this
invocation (an oracle, since real time is outside the model): call 0 is
the warm-up on line 58, whose value is discarded; calls 1..repeats are
the timed passes of line 59.  The second component is the ordered list of
`_run_once` calls performed. -/
def _benchmark (elapsed : ℕ → ℚ) (threads chunk_size matrix_size : ℤ)
    (repeats : ℕ) : BenchResult × List PassCall :=
  let warmCall : PassCall := ⟨threads, chunk_size, matrix_size⟩
  let timedCalls : List PassCall :=
    (List.range repeats).map (fun _ => ⟨threads, chunk_size, matrix_size⟩)
  let times : List ℚ := (List.range repeats).map (fun j => elapsed (j + 1))
  ({ times := times
     median := pymedian times
     min := pyListMin times
     max := pyListMax times
     repeats := (repeats : ℤ) },
   warmCall :: timedCalls)

/- ============ MetricsCalculator and handler (run.py lines 96-135) ====== -/

/-- Validated configuration (the four clamped fields of lines 107-110). -/
structure BenchConfig where
  thread_count : ℤ
  chunk_size : ℤ
  matrix_size : ℤ
  repeats : ℤ
deriving DecidableEq

/-- The `metrics` sub-dict of the response (lines 129-134). -/
structure Metrics where
  baseline_median_s : ℚ
  current_median_s : ℚ
  speedup : ℚ
  efficiency : ℚ
deriving DecidableEq

/-- The `result` dict of the response (lines 120-135). -/
structure RunReport where
  config : BenchConfig
  baseline : BenchResult
  current : BenchResult
  metrics : Metrics
deriving DecidableEq

/-- The four raw request fields `data.get(...)` of lines 107-110. -/
structure RawConfig where
  thread_count : RawValue
  chunk_size : RawValue
  matrix_size : RawValue
  repeats : RawValue

/-- Line 117: `speedup = (t1 / tp) if tp > 0 else 0.0`. -/
def speedupOf (t1 tp : ℚ) : ℚ := if 0 < tp then t1 / tp else 0

/-- Line 118: `efficiency = (speedup / threads) if threads > 0 else 0.0`. -/
def efficiencyOf (speedup : ℚ) (threads : ℤ) : ℚ :=
  if 0 < threads then speedup / (threads : ℚ) else 0

/-- Embedding of the fault-free path of `handler.do_POST` of run.py
(lines 107-135): clamp each field, run the baseline benchmark with
`threads = 1`, run the current benchmark with the requested thread count,
compute the metrics from the two medians, and assemble the report.
`elapsedBase` and `elapsedCur` are the timing oracles of the two
`_benchmark` invocations (executed in that order at lines 112-113). -/
def run_do_POST (elapsedBase elapsedCur : ℕ → ℚ) (data : RawConfig) : RunReport :=
  let threads := _clamp_int data.thread_count 1 64 4
  let chunk_size := _clamp_int data.chunk_size 1 4096 128
  let matrix_size := _clamp_int data.matrix_size 128 4096 1024
  let repeats := _clamp_int data.repeats 1 15 5
  let base := (_benchmark elapsedBase 1 chunk_size matrix_size repeats.toNat).1
  let cur := (_benchmark elapsedCur threads chunk_size matrix_size repeats.toNat).1
  let t1 := base.median
  let tp := cur.median
  let speedup := speedupOf t1 tp
  let efficiency := efficiencyOf speedup threads
  { config := ⟨threads, chunk_size, matrix_size, repeats⟩
    baseline := base
    current := cur
    metrics := ⟨t1, tp, speedup, efficiency⟩ }

/- ============ Fault propagation (run.py lines 48-51 and 143-149) ======= -/

/-- Embedding of the barrier loop `for f in as_completed(futs): f.result()`
(lines 50-51): walk the task outcomes in completion order; the first
outcome that raised propagates, otherwise the loop finishes. -/
def gatherResults : List (Except String Unit) → Except String Unit
  | [] => Except.ok ()
  | Except.error e :: _ => Except.error e
  | Except.ok _ :: rest => gatherResults rest

/-- The first fault in completion order, if any (specification-side
companion of `gatherResults`). -/
def firstFault : List (Except String Unit) → Option String
  | [] => Option.none
  | Except.error e :: _ => some e
  | Except.ok _ :: rest => firstFault rest

/-- One `_run_once` pass with fault injection: `taskOutcomes` are the
chunk-task outcomes in completion order; if the barrier loop raises, the
pass raises, otherwise it returns its elapsed-time reading. -/
def runOncePass (taskOutcomes : List (Except String Unit)) (elapsed : ℚ) :
    Except String ℚ :=
  match gatherResults taskOutcomes with
  | Except.error e => Except.error e
  | Except.ok _ => Except.ok elapsed

/-- The list comprehension of line 59 with fault injection: passes
`start, start+1, ..., start+count-1` run in order; the first pass that
raises aborts the comprehension with its fault. -/
def timedPasses (passTasks : ℕ → List (Except String Unit)) (elapsed : ℕ → ℚ) :
    ℕ → ℕ → Except String (List ℚ)
  | _, 0 => Except.ok []
  | j, count + 1 =>
    match runOncePass (passTasks j) (elapsed j) with
    | Except.error e => Except.error e
    | Except.ok t => (timedPasses passTasks elapsed (j + 1) count).map (fun ts => t :: ts)

/-- Embedding of `_benchmark` with fault injection: the warm-up pass
(index 0) runs first and its fault, if any, propagates; then the timed
passes 1..repeats run in order. -/
def benchmarkE (passTasks : ℕ → List (Except String Unit)) (elapsed : ℕ → ℚ)
    (threads chunk_size matrix_size : ℤ) (repeats : ℕ) : Except String BenchResult :=
  match runOncePass (passTasks 0) (elapsed 0) with
  | Except.error e => Except.error e
  | Except.ok _ =>
    (timedPasses passTasks elapsed 1 repeats).map (fun times =>
      { times := times
        median := pymedian times
        min := pyListMin times
        max := pyListMax times
        repeats := (repeats : ℤ) })

/-- The two possible HTTP responses of `handler.do_POST`: the 200 JSON
report of lines 137-141, or the 500 error of lines 143-149. -/
inductive HttpResponse
  | ok (report : RunReport)
  | err (code : ℕ) (message : String)
deriving DecidableEq

/-- Embedding of `handler.do_POST` with fault injection (lines 102-149):
the whole body runs under one `try/except`, so the first fault raised by
either `_benchmark` call aborts the handler, which then sends a single
500 error response; otherwise the 200 report is sent.  `tasksBase j` /
`tasksCur j` are the completion-ordered chunk-task outcomes of pass `j`
of the baseline / current run. -/
def run_do_POST_E (tasksBase tasksCur : ℕ → List (Except String Unit))
    (elB elC : ℕ → ℚ) (data : RawConfig) : HttpResponse :=
  let threads := _clamp_int data.thread_count 1 64 4
  let chunk_size := _clamp_int data.chunk_size 1 4096 128
  let matrix_size := _clamp_int data.matrix_size 128 4096 1024
  let repeats := _clamp_int data.repeats 1 15 5
  match benchmarkE tasksBase elB 1 chunk_size matrix_size repeats.toNat with
  | Except.error e => HttpResponse.err 500 e
  | Except.ok base =>
    match benchmarkE tasksCur elC threads chunk_size matrix_size repeats.toNat with
    | Except.error e => HttpResponse.err 500 e
    | Except.ok cur =>
      let t1 := base.median
      let tp := cur.median
      let speedup := speedupOf t1 tp
      let efficiency := efficiencyOf speedup threads
      HttpResponse.ok
        { config := ⟨threads, chunk_size, matrix_size, repeats⟩
          baseline := base
          current := cur
          metrics := ⟨t1, tp, speedup, efficiency⟩ }

/- ===================== Helper lemmas: ChunkPlanner ===================== -/

lemma rangesAux_eq_nil (n c fuel i : ℕ) :
    rangesAux n c i fuel = [] ↔ fuel = 0 ∨ n ≤ i := by
  cases fuel with
  | zero => simp [rangesAux]
  | succ f =>
    by_cases hi : i < n <;> simp [rangesAux, hi] <;> omega

lemma rangesAux_mem (n c : ℕ) (hc : 0 < c) :
    ∀ fuel i p, n - i ≤ fuel → p ∈ rangesAux n c i fuel →
      i ≤ p.1 ∧ p.1 < p.2 ∧ p.2 ≤ n ∧ p.2 - p.1 ≤ c := by
  intro fuel
  induction fuel with
  | zero => intro i p _ hp; simp [rangesAux] at hp
  | succ f ih =>
    intro i p hfuel hp
    by_cases hi : i < n
    · simp only [rangesAux, if_pos hi, List.mem_cons] at hp
      rcases hp with rfl | hp
      · simp only []
        omega
      · have := ih (i + c) p (by omega) hp
        omega
    · simp [rangesAux, hi] at hp

lemma rangesAux_chain (n c : ℕ) (hc : 0 < c) :
    ∀ fuel i, n - i ≤ fuel →
      List.Chain' (fun p q : ℕ × ℕ => p.2 = q.1) (rangesAux n c i fuel) := by
  intro fuel
  induction fuel with
  | zero => intro i _; simp [rangesAux]
  | succ f ih =>
    intro i hfuel
    by_cases hi : i < n
    · simp only [rangesAux, if_pos hi]
      refine List.chain'_cons'.mpr ⟨?_, ih (i + c) (by omega)⟩
      intro q hq
      have hq' := List.mem_of_mem_head? hq
      have hmem := rangesAux_mem n c hc f (i + c) q (by omega) hq'
      cases f with
      | zero => simp [rangesAux] at hq'
      | succ f' =>
        by_cases hic : i + c < n
        · simp only [rangesAux, if_pos hic, List.head?_cons, Option.mem_def,
            Option.some.injEq] at hq
          subst hq
          simp only []
          omega
        · simp [rangesAux, hic] at hq'
    · simp [rangesAux, hi]

lemma rangesAux_last (n c : ℕ) (hc : 0 < c) :
    ∀ fuel i p, n - i ≤ fuel → (rangesAux n c i fuel).getLast? = some p →
      p.2 = n := by
  intro fuel
  induction fuel with
  | zero => intro i p _ hp; simp [rangesAux] at hp
  | succ f ih =>
    intro i p hfuel hp
    by_cases hi : i < n
    · simp only [rangesAux, if_pos hi] at hp
      rcases hrest : rangesAux n c (i + c) f with _ | ⟨q, rest⟩
      · rw [hrest, List.getLast?_singleton] at hp
        have := (rangesAux_eq_nil n c f (i + c)).mp hrest
        cases hp
        simp only []
        omega
      · rw [hrest, List.getLast?_cons_cons] at hp
        exact ih (i + c) p (by omega) (by rw [hrest]; exact hp)
    · simp [rangesAux, hi] at hp

lemma rangesAux_dropLast (n c : ℕ) (hc : 0 < c) :
    ∀ fuel i p, n - i ≤ fuel → p ∈ (rangesAux n c i fuel).dropLast →
      p.2 - p.1 = c := by
  intro fuel
  induction fuel with
  | zero => intro i p _ hp; simp [rangesAux] at hp
  | succ f ih =>
    intro i p hfuel hp
    by_cases hi : i < n
    · simp only [rangesAux, if_pos hi] at hp
      rcases hrest : rangesAux n c (i + c) f with _ | ⟨q, rest⟩
      · rw [hrest] at hp
        simp at hp
      · rw [hrest, List.dropLast_cons_of_ne_nil (by simp), List.mem_cons] at hp
        rcases hp with rfl | hp
        · have hne : ¬(f = 0 ∨ n ≤ i + c) := by
            intro hcontra
            have : rangesAux n c (i + c) f = [] :=
              (rangesAux_eq_nil n c f (i + c)).mpr hcontra
            rw [this] at hrest
            exact List.noConfusion hrest
          show min (i + c) n - i = c
          omega
        · exact ih (i + c) p (by omega) (by rw [hrest]; exact hp)
    · simp [rangesAux, hi] at hp

lemma rangesAux_length (n c : ℕ) (hc : 0 < c) :
    ∀ fuel i, n - i ≤ fuel →
      (rangesAux n c i fuel).length = (n - i + c - 1) / c := by
  intro fuel
  induction fuel with
  | zero =>
    intro i hfuel
    have h0 : n - i = 0 := by omega
    have h2 : (c - 1) / c = 0 := Nat.div_eq_of_lt (by omega)
    simp [rangesAux, h0, h2]
  | succ f ih =>
    intro i hfuel
    by_cases hi : i < n
    · simp only [rangesAux, if_pos hi, List.length_cons]
      rw [ih (i + c) (by omega)]
      rcases le_or_lt (n - i) c with hle | hlt
      · have h1 : n - (i + c) = 0 := by omega
        have h2 : (0 + c - 1) / c = 0 := Nat.div_eq_of_lt (by omega)
        have h3 : n - i + c - 1 = (n - i - 1) + c := by omega
        rw [h1, h2, h3, Nat.add_div_right _ hc]
        have : (n - i - 1) / c = 0 := Nat.div_eq_of_lt (by omega)
        omega
      · have h3 : n - i + c - 1 = (n - i - 1) + c := by omega
        have h4 : n - (i + c) + c - 1 = n - i - 1 := by omega
        rw [h3, h4, Nat.add_div_right _ hc]
    · have hnil : rangesAux n c i (f + 1) = [] := by simp [rangesAux, hi]
      have h0 : n - i = 0 := by omega
      have h2 : (c - 1) / c = 0 := Nat.div_eq_of_lt (by omega)
      simp [hnil, h0, h2]

lemma rangesAux_pairwise (n c : ℕ) (hc : 0 < c) :
    ∀ fuel i, n - i ≤ fuel →
      List.Pairwise (fun p q : ℕ × ℕ => p.2 ≤ q.1) (rangesAux n c i fuel) := by
  intro fuel
  induction fuel with
  | zero => intro i _; simp [rangesAux]
  | succ f ih =>
    intro i hfuel
    by_cases hi : i < n
    · simp only [rangesAux, if_pos hi]
      refine List.pairwise_cons.mpr ⟨?_, ih (i + c) (by omega)⟩
      intro q hq
      have := rangesAux_mem n c hc f (i + c) q (by omega) hq
      simp only []
      omega
    · simp [rangesAux, hi]

/- ===================== Claim C2: chunk plan ============================ -/

/-- C2: for every n ≥ 1 and chunk_size ≥ 1 the chunk plan of `_run_once`
is an ordered sequence of half-open row ranges that are contiguous
(each range ends where the next begins) and non-overlapping, whose first
range starts at 0 and whose last range ends exactly at n, each range
nonempty of length at most `clamp(chunk_size, 1, n) = max 1 (min
chunk_size n)` with only the final range possibly shorter, and whose
count is `ceil(n / clamp) = (n + clamp - 1) / clamp`; for n = 0 the plan
is empty. -/
theorem chunkPlan_partitions (n cs : ℕ) (hn : 1 ≤ n) (hcs : 1 ≤ cs) :
    ((planRanges n cs).map Prod.fst).head? = some 0 ∧
    List.Chain' (fun p q : ℕ × ℕ => p.2 = q.1) (planRanges n cs) ∧
    List.Pairwise (fun p q : ℕ × ℕ => p.2 ≤ q.1) (planRanges n cs) ∧
    Option.map Prod.snd (planRanges n cs).getLast? = some n ∧
    (∀ p ∈ planRanges n cs, p.1 < p.2 ∧ p.2 - p.1 ≤ max 1 (min cs n)) ∧
    (∀ p ∈ (planRanges n cs).dropLast, p.2 - p.1 = max 1 (min cs n)) ∧
    (planRanges n cs).length = (n + max 1 (min cs n) - 1) / max 1 (min cs n) ∧
    planRanges 0 cs = [] := by
  have hplan : planRanges n cs = rangesAux n (max 1 (min cs n)) 0 n := rfl
  set c := max 1 (min cs n) with hcdef
  have hc : 0 < c := lt_of_lt_of_le Nat.one_pos (le_max_left _ _)
  have hfuel : n - 0 ≤ n := by omega
  refine ⟨?_, ?_, ?_, ?_, ?_, ?_, ?_, rfl⟩
  · obtain ⟨m, rfl⟩ : ∃ m, n = m + 1 := ⟨n - 1, by omega⟩
    rw [hplan]
    simp [rangesAux]
  · rw [hplan]; exact rangesAux_chain n c hc n 0 hfuel
  · rw [hplan]; exact rangesAux_pairwise n c hc n 0 hfuel
  · rw [hplan]
    have hne : rangesAux n c 0 n ≠ [] := by
      rw [Ne, rangesAux_eq_nil]
      omega
    obtain ⟨p, hp⟩ := Option.isSome_iff_exists.mp (List.getLast?_isSome.mpr hne)
    rw [hp]
    exact congrArg some (rangesAux_last n c hc n 0 p hfuel hp)
  · rw [hplan]
    intro p hp
    have := rangesAux_mem n c hc n 0 p hfuel hp
    exact ⟨this.2.1, this.2.2.2⟩
  · rw [hplan]
    intro p hp
    exact rangesAux_dropLast n c hc n 0 p hfuel hp
  · rw [hplan, rangesAux_length n c hc n 0 hfuel]
    norm_num

/-- Witness for C2: the plan for n = 5, chunk_size = 2 is
`[(0,2), (2,4), (4,5)]` and satisfies every clause of the theorem. -/
theorem chunkPlan_partitions_checked :
    planRanges 5 2 = [(0, 2), (2, 4), (4, 5)] ∧
    (((planRanges 5 2).map Prod.fst).head? = some 0 ∧
     List.Chain' (fun p q : ℕ × ℕ => p.2 = q.1) (planRanges 5 2) ∧
     List.Pairwise (fun p q : ℕ × ℕ => p.2 ≤ q.1) (planRanges 5 2) ∧
     Option.map Prod.snd (planRanges 5 2).getLast? = some 5 ∧
     (∀ p ∈ planRanges 5 2, p.1 < p.2 ∧ p.2 - p.1 ≤ max 1 (min 2 5)) ∧
     (∀ p ∈ (planRanges 5 2).dropLast, p.2 - p.1 = max 1 (min 2 5)) ∧
     (planRanges 5 2).length = (5 + max 1 (min 2 5) - 1) / max 1 (min 2 5) ∧
     planRanges 0 2 = []) :=
  ⟨by decide, chunkPlan_partitions 5 2 (by decide) (by decide)⟩

/- ===================== Helper lemmas: kernel and dispatch ============== -/

lemma kernelChunk_pointwise {α : Type} (ops : KernelOps α) (A B OUT : Mat α)
    (i0 i1 r c : ℕ) :
    _kernel_chunk ops A B OUT i0 i1 r c =
      if i0 ≤ r ∧ r < i1 then kernelFormula ops A B r c else OUT r c := by
  by_cases h : i0 ≤ r ∧ r < i1 <;>
    simp [_kernel_chunk, writeRows, kernelFormula, h]

lemma seqDispatch_pointwise {α : Type} (ops : KernelOps α) (A B : Mat α) :
    ∀ (L : List (ℕ × ℕ)) (OUT : Mat α) (r c : ℕ),
      seqDispatch ops A B OUT L r c =
        if rowCovered L r then kernelFormula ops A B r c else OUT r c := by
  intro L
  induction L with
  | nil => intro OUT r c; simp [seqDispatch, rowCovered]
  | cons p L ih =>
    intro OUT r c
    have hstep : seqDispatch ops A B OUT (p :: L) =
        seqDispatch ops A B (_kernel_chunk ops A B OUT p.1 p.2) L := rfl
    rw [hstep, ih, kernelChunk_pointwise]
    have hcov : rowCovered (p :: L) r =
        (decide (p.1 ≤ r ∧ r < p.2) || rowCovered L r) := by
      simp [rowCovered]
    rw [hcov]
    by_cases h1 : rowCovered L r <;> by_cases h2 : p.1 ≤ r ∧ r < p.2 <;>
      simp [h1, h2]

lemma rowCovered_of_perm {L M : List (ℕ × ℕ)} (h : L.Perm M) (r : ℕ) :
    rowCovered L r = rowCovered M r := by
  rcases hcov : rowCovered M r
  · rcases hcov' : rowCovered L r
    · rfl
    · exfalso
      rw [rowCovered, List.any_eq_true] at hcov'
      obtain ⟨p, hp, hpr⟩ := hcov'
      have : rowCovered M r = true := by
        rw [rowCovered, List.any_eq_true]
        exact ⟨p, h.mem_iff.mp hp, hpr⟩
      rw [hcov] at this
      exact Bool.noConfusion this
  · rw [rowCovered, List.any_eq_true] at hcov
    obtain ⟨p, hp, hpr⟩ := hcov
    rw [rowCovered, List.any_eq_true]
    exact ⟨p, h.mem_iff.mpr hp, hpr⟩

/- ===================== Claim C3: kernel writes ========================= -/

/-- C3: applying `_kernel_chunk` to rows `[i0, i1)` writes
`OUT[r,c] = A[r,c]*B[r,c] + sin(A[r,c]) - sqrt(abs(B[r,c]))` at every
element with `i0 ≤ r < i1`, and leaves every element outside those rows
unchanged (the frame property; `A` and `B` are inputs only, so they are
unmodified by construction of the embedding). -/
theorem kernel_chunk_writes {α : Type} (ops : KernelOps α) (A B OUT : Mat α)
    (i0 i1 r c : ℕ) :
    (i0 ≤ r → r < i1 →
      _kernel_chunk ops A B OUT i0 i1 r c = kernelFormula ops A B r c) ∧
    (¬(i0 ≤ r ∧ r < i1) →
      _kernel_chunk ops A B OUT i0 i1 r c = OUT r c) := by
  constructor
  · intro h1 h2
    rw [kernelChunk_pointwise, if_pos ⟨h1, h2⟩]
  · intro h
    rw [kernelChunk_pointwise, if_neg h]

/-- Concrete scalar operations for witnesses (any scalar instance will do;
the claims hold for all of them). -/
def sampleOps : KernelOps ℤ :=
  { mul := (· * ·)
    add := (· + ·)
    sub := (· - ·)
    sin := fun x => x + 1
    sqrt := fun x => 2 * x
    abs := fun x => x * x }

/-- Concrete input matrix for witnesses. -/
def sampleA : Mat ℤ := fun r c => (r : ℤ) + 2 * (c : ℤ)

/-- Concrete input matrix for witnesses. -/
def sampleB : Mat ℤ := fun r c => (r : ℤ) * (c : ℤ) + 1

/-- Concrete output buffer for witnesses. -/
def sampleOUT : Mat ℤ := fun _ _ => 7

/-- Witness for C3: row 1 of the chunk `[0, 2)` gets the kernel formula,
row 5 is left unchanged. -/
theorem kernel_chunk_writes_checked :
    _kernel_chunk sampleOps sampleA sampleB sampleOUT 0 2 1 3 =
      kernelFormula sampleOps sampleA sampleB 1 3 ∧
    _kernel_chunk sampleOps sampleA sampleB sampleOUT 0 2 5 3 = sampleOUT 5 3 :=
  ⟨(kernel_chunk_writes sampleOps sampleA sampleB sampleOUT 0 2 1 3).1
      (by decide) (by decide),
   (kernel_chunk_writes sampleOps sampleA sampleB sampleOUT 0 2 5 3).2
      (by decide)⟩

/- ===================== Claim C7: sequential = pooled =================== -/

/-- C7: for every `(A, B, OUT, ranges)`, the sequential path
(`threads <= 1`: kernel applied to every range in order) and the pooled
path (`threads > 1`: one task per range, pool of `min(threads,
len(ranges))` workers, tasks completing in an arbitrary order `order`)
produce identical OUT contents; consequently `_run_once` writes the same
buffer whatever the thread count. -/
theorem dispatch_seq_pooled_agree {α : Type} (ops : KernelOps α)
    (A B OUT : Mat α) (ranges order : List (ℕ × ℕ)) (threads : ℤ)
    (hperm : ranges.Perm order) :
    pooledDispatch ops A B OUT order = seqDispatch ops A B OUT ranges ∧
    runOnceOut ops A B OUT ranges order threads =
      seqDispatch ops A B OUT ranges := by
  have hpool : pooledDispatch ops A B OUT order =
      seqDispatch ops A B OUT ranges := by
    funext r c
    show seqDispatch ops A B OUT order r c = seqDispatch ops A B OUT ranges r c
    rw [seqDispatch_pointwise, seqDispatch_pointwise,
      rowCovered_of_perm hperm.symm r]
  refine ⟨hpool, ?_⟩
  rw [runOnceOut]
  split
  · rfl
  · exact hpool

/-- Witness for C7: a two-range plan executed in reversed completion
order yields the same buffer as the sequential loop, for both dispatch
branches. -/
theorem dispatch_seq_pooled_agree_checked :
    pooledDispatch sampleOps sampleA sampleB sampleOUT [(1, 3), (0, 1)] =
      seqDispatch sampleOps sampleA sampleB sampleOUT [(0, 1), (1, 3)] ∧
    runOnceOut sampleOps sampleA sampleB sampleOUT [(0, 1), (1, 3)]
        [(1, 3), (0, 1)] 4 =
      seqDispatch sampleOps sampleA sampleB sampleOUT [(0, 1), (1, 3)] :=
  dispatch_seq_pooled_agree sampleOps sampleA sampleB sampleOUT
    [(0, 1), (1, 3)] [(1, 3), (0, 1)] 4 (by decide)

/- ===================== Helper lemmas: ArrayCache ======================= -/

lemma cacheLookup_eq_none_iff (cache : ArrayCache) (n : ℕ) :
    cacheLookup cache n = Option.none ↔ n ∉ cache.map Prod.fst := by
  induction cache with
  | nil => simp [cacheLookup]
  | cons p rest ih =>
    obtain ⟨m, t⟩ := p
    by_cases h : m = n
    · subst h
      simp [cacheLookup]
    · simp [cacheLookup, h, ih, Ne.symm h]

lemma cacheLookup_mem {cache : ArrayCache} {n : ℕ} {t : MatrixTriple}
    (h : cacheLookup cache n = some t) : (n, t) ∈ cache := by
  induction cache with
  | nil => simp [cacheLookup] at h
  | cons p rest ih =>
    obtain ⟨m, u⟩ := p
    by_cases hm : m = n
    · subst hm
      simp [cacheLookup] at h
      subst h
      exact List.mem_cons_self _ _
    · rw [cacheLookup, if_neg hm] at h
      exact List.mem_cons_of_mem _ (ih h)

/- ===================== Claim C9: cache memoization ===================== -/

/-- C9: for a well-formed cache (every stored triple is the generated one
for its key, keys distinct - both invariants hold for the process cache,
which starts empty and is mutated only by `_get_arrays`), `get_or_create`
returns the deterministic triple `genTriple n` (a function of n alone,
since the seed is hard-coded); a second call for the same n returns the
identical stored triple without regenerating (generated-flag false) and
leaves the cache unchanged; a first call for an uncached n is a fresh
generation event; and both invariants are preserved, so the cache keeps
at most one entry per distinct n. -/
theorem cache_get_or_create_memoizes (cache : ArrayCache) (n : ℕ)
    (hwf : ∀ p ∈ cache, p.2 = genTriple p.1)
    (hnd : (cache.map Prod.fst).Nodup) :
    (_get_arrays cache n).1 = genTriple n ∧
    (_get_arrays (_get_arrays cache n).2.1 n).1 = (_get_arrays cache n).1 ∧
    (_get_arrays (_get_arrays cache n).2.1 n).2.2 = false ∧
    (_get_arrays (_get_arrays cache n).2.1 n).2.1 = (_get_arrays cache n).2.1 ∧
    (cacheLookup cache n = Option.none → (_get_arrays cache n).2.2 = true) ∧
    ((_get_arrays cache n).2.1.map Prod.fst).Nodup ∧
    (∀ p ∈ (_get_arrays cache n).2.1, p.2 = genTriple p.1) := by
  rcases h : cacheLookup cache n with _ | t
  · have hmiss : _get_arrays cache n = (genTriple n, (n, genTriple n) :: cache, true) := by
      rw [_get_arrays, h]
    have hhit : cacheLookup ((n, genTriple n) :: cache) n = some (genTriple n) := by
      simp [cacheLookup]
    have hnmem : n ∉ cache.map Prod.fst := (cacheLookup_eq_none_iff cache n).mp h
    refine ⟨by rw [hmiss], ?_, ?_, ?_, fun _ => by rw [hmiss], ?_, ?_⟩
    · rw [hmiss]
      show (_get_arrays ((n, genTriple n) :: cache) n).1 = genTriple n
      rw [_get_arrays, hhit]
    · rw [hmiss]
      show (_get_arrays ((n, genTriple n) :: cache) n).2.2 = false
      rw [_get_arrays, hhit]
    · rw [hmiss]
      show (_get_arrays ((n, genTriple n) :: cache) n).2.1 = (n, genTriple n) :: cache
      rw [_get_arrays, hhit]
    · rw [hmiss]
      exact List.Nodup.cons hnmem hnd
    · rw [hmiss]
      intro p hp
      rcases List.mem_cons.mp hp with rfl | hp
      · rfl
      · exact hwf p hp
  · have hhit : _get_arrays cache n = (t, cache, false) := by
      rw [_get_arrays, h]
    have ht : t = genTriple n := hwf (n, t) (cacheLookup_mem h)
    refine ⟨?_, ?_, ?_, ?_, ?_, ?_, ?_⟩
    · rw [hhit]; exact ht
    · rw [hhit]
      show (_get_arrays cache n).1 = t
      rw [_get_arrays, h]
    · rw [hhit]
      show (_get_arrays cache n).2.2 = false
      rw [_get_arrays, h]
    · rw [hhit]
      show (_get_arrays cache n).2.1 = cache
      rw [_get_arrays, h]
    · intro hcontra
      exact Option.noConfusion hcontra
    · rw [hhit]; exact hnd
    · rw [hhit]; exact hwf

/-- Witness for C9: starting from the empty cache, the first call for
n = 2 generates (flag true), the second call returns the identical triple
without regenerating (flag false). -/
theorem cache_get_or_create_memoizes_checked :
    (_get_arrays ([] : ArrayCache) 2).1 = genTriple 2 ∧
    (_get_arrays (_get_arrays ([] : ArrayCache) 2).2.1 2).1 =
      (_get_arrays ([] : ArrayCache) 2).1 ∧
    (_get_arrays (_get_arrays ([] : ArrayCache) 2).2.1 2).2.2 = false ∧
    (_get_arrays ([] : ArrayCache) 2).2.2 = true :=
  ⟨(cache_get_or_create_memoizes [] 2 (by simp) (by simp)).1,
   (cache_get_or_create_memoizes [] 2 (by simp) (by simp)).2.1,
   (cache_get_or_create_memoizes [] 2 (by simp) (by simp)).2.2.1,
   (cache_get_or_create_memoizes [] 2 (by simp) (by simp)).2.2.2.2.1 rfl⟩

/- ===================== Claim C1: clear_cache =========================== -/

/-- C1 fails on the code: clear_cache.py's `do_POST` clears its own
module-level `_ARRAY_CACHE` (a fresh dict created at clear_cache.py line
7), never run.py's dict, despite the comment `Shared cache with run.py`.
Concretely: after a benchmark pass caches n = 128 in run.py's cache and
the clear endpoint then runs, the next benchmark pass for n = 128 still
finds the entry - the generated-flag is false, no fresh memoization
event occurs and the matrices are not regenerated, contradicting the
claimed behaviour of `clear_cache()`.  (The clear endpoint itself does
respond 200 and is idempotent; what fails is the emptying of the cache
`run_benchmark` consults.) -/
theorem clear_cache_misses_run_cache :
    (runGetArrays ⟨[], []⟩ 128).2.1.runArrayCache ≠ [] ∧
    (clear_cache_do_POST (runGetArrays ⟨[], []⟩ 128).2.1).1.runArrayCache =
      (runGetArrays ⟨[], []⟩ 128).2.1.runArrayCache ∧
    (runGetArrays (clear_cache_do_POST (runGetArrays ⟨[], []⟩ 128).2.1).1
        128).2.2 = false ∧
    (clear_cache_do_POST (runGetArrays ⟨[], []⟩ 128).2.1).2 =
      (200, clearedMsg) := by
  refine ⟨?_, rfl, ?_, rfl⟩
  · intro hcontra
    exact List.noConfusion hcontra
  · decide

/- ===================== Claim C4: clamp and config ====================== -/

/-- String used by witnesses: a value `int()` cannot parse. -/
def strAbc : String := "abc"

/-- C4: `_clamp_int` returns the default exactly when `int(raw_value)`
fails, and otherwise bounds the value into `[lo, hi]` (below-range values
become lo, above-range values become hi, in-range values pass through,
for any sane range `lo ≤ hi`); `run_benchmark` applies it independently
to the four fields with ranges/defaults `thread_count [1,64]/4`,
`chunk_size [1,4096]/128`, `matrix_size [128,4096]/1024`,
`repeats [1,15]/5`, the report's config carries exactly the clamped
values, and in particular a request with `matrix_size` 50 yields
`config.matrix_size = 128`. -/
theorem clamp_int_validates (x : RawValue) (lo hi d v : ℤ) :
    (pyInt x = Option.none → _clamp_int x lo hi d = d) ∧
    (pyInt x = some v → _clamp_int x lo hi d = max lo (min hi v)) ∧
    (lo ≤ hi → pyInt x = some v →
      (v < lo → _clamp_int x lo hi d = lo) ∧
      (hi < v → _clamp_int x lo hi d = hi) ∧
      (lo ≤ v → v ≤ hi → _clamp_int x lo hi d = v)) ∧
    (∀ elB elC data, (run_do_POST elB elC data).config =
      ⟨_clamp_int data.thread_count 1 64 4,
       _clamp_int data.chunk_size 1 4096 128,
       _clamp_int data.matrix_size 128 4096 1024,
       _clamp_int data.repeats 1 15 5⟩) ∧
    (∀ elB elC tc cs rp,
      (run_do_POST elB elC ⟨tc, cs, RawValue.int 50, rp⟩).config.matrix_size
        = 128) := by
  refine ⟨?_, ?_, ?_, fun elB elC data => rfl, ?_⟩
  · intro h
    rw [_clamp_int, h]
  · intro h
    rw [_clamp_int, h]
  · intro hlh h
    have hval : _clamp_int x lo hi d = max lo (min hi v) := by
      rw [_clamp_int, h]
    refine ⟨fun hv => ?_, fun hv => ?_, fun hv1 hv2 => ?_⟩ <;> rw [hval] <;>
      omega
  · intro elB elC tc cs rp
    show _clamp_int (RawValue.int 50) 128 4096 1024 = 128
    decide

/-- Witness for C4: an unparseable string yields the default, 9001
clamps to 64, 10 passes through, and a request carrying `matrix_size`
50 produces a report whose config says 128. -/
theorem clamp_int_validates_checked :
    _clamp_int (RawValue.str strAbc) 1 64 4 = 4 ∧
    _clamp_int (RawValue.int 9001) 1 64 4 = 64 ∧
    _clamp_int (RawValue.int 10) 1 64 4 = 10 ∧
    (run_do_POST (fun _ => 0) (fun _ => 0)
        ⟨RawValue.none, RawValue.none, RawValue.int 50, RawValue.none⟩).config.matrix_size
      = 128 :=
  ⟨(clamp_int_validates (RawValue.str strAbc) 1 64 4 0).1 (by decide),
   ((clamp_int_validates (RawValue.int 9001) 1 64 4 9001).2.2.1 (by decide)
      rfl).2.1 (by decide),
   ((clamp_int_validates (RawValue.int 10) 1 64 4 10).2.2.1 (by decide)
      rfl).2.2 (by decide) (by decide),
   (clamp_int_validates RawValue.none 1 64 4 0).2.2.2.2 (fun _ => 0)
      (fun _ => 0) RawValue.none RawValue.none RawValue.none⟩

/- ===================== Claim C10: numeric vs string coercion =========== -/

/-- String used by witnesses: a non-integral numeric string. -/
def strNineNine : String := "9.9"

/-- C10: a numeric non-integral raw value is truncated toward zero and
then clamped (so `clamp_int(9.9, 1, 64, 4) = 9`), while the string
`9.9` and a missing field (`None`) both fail `int()` conversion and
yield the default 4 - the same quantity validates differently depending
on whether it arrives as a JSON number or a string. -/
theorem float_truncates_string_defaults :
    (∀ (q : ℚ) (lo hi d : ℤ),
      _clamp_int (RawValue.float q) lo hi d =
        max lo (min hi (Int.tdiv q.num (q.den : ℤ)))) ∧
    _clamp_int (RawValue.float (99 / 10)) 1 64 4 = 9 ∧
    _clamp_int (RawValue.str strNineNine) 1 64 4 = 4 ∧
    _clamp_int RawValue.none 1 64 4 = 4 ∧
    _clamp_int (RawValue.float (99 / 10)) 1 64 4 ≠
      _clamp_int (RawValue.str strNineNine) 1 64 4 := by
  have hq9 : _clamp_int (RawValue.float (99 / 10)) 1 64 4 = 9 := by
    have hnum : ((99 : ℚ) / 10).num = 99 := by norm_num
    have hden : ((99 : ℚ) / 10).den = 10 := by norm_num
    show max 1 (min 64 (pyTrunc (99 / 10))) = 9
    rw [pyTrunc, hnum, hden]
    decide
  have hs : _clamp_int (RawValue.str strNineNine) 1 64 4 = 4 := by decide
  exact ⟨fun q lo hi d => rfl, hq9, hs, rfl, by rw [hq9, hs]; decide⟩

/- ===================== Claim C5: speedup and efficiency ================ -/

/-- C5: speedup is `baseline.median / current.median` when the current
median is positive and 0.0 otherwise; efficiency is
`speedup / thread_count` when the thread count is positive and 0.0
otherwise; equal positive medians give speedup 1.0, and then
thread_count 1 gives efficiency 1.0; and the report's metrics are
computed exactly this way from the two runs' medians and the clamped
thread count. -/
theorem metrics_speedup_efficiency (t1 tp s : ℚ) (k : ℤ) :
    (0 < tp → speedupOf t1 tp = t1 / tp) ∧
    (¬0 < tp → speedupOf t1 tp = 0) ∧
    (0 < k → efficiencyOf s k = s / (k : ℚ)) ∧
    (¬0 < k → efficiencyOf s k = 0) ∧
    (0 < tp → speedupOf tp tp = 1 ∧ efficiencyOf (speedupOf tp tp) 1 = 1) ∧
    (∀ elB elC data,
      (run_do_POST elB elC data).metrics.speedup =
        speedupOf (run_do_POST elB elC data).baseline.median
          (run_do_POST elB elC data).current.median ∧
      (run_do_POST elB elC data).metrics.efficiency =
        efficiencyOf (run_do_POST elB elC data).metrics.speedup
          (run_do_POST elB elC data).config.thread_count) := by
  refine ⟨fun h => ?_, fun h => ?_, fun h => ?_, fun h => ?_, fun h => ?_,
    fun elB elC data => ⟨rfl, rfl⟩⟩
  · rw [speedupOf, if_pos h]
  · rw [speedupOf, if_neg h]
  · rw [efficiencyOf, if_pos h]
  · rw [efficiencyOf, if_neg h]
  · have h1 : speedupOf tp tp = 1 := by
      rw [speedupOf, if_pos h]
      exact div_self (ne_of_gt h)
    refine ⟨h1, ?_⟩
    rw [h1, efficiencyOf, if_pos Int.one_pos]
    norm_num

/-- Witness for C5: equal positive medians (value 2) give speedup 1 and,
at thread count 1, efficiency 1; a zero current median gives speedup 0. -/
theorem metrics_speedup_efficiency_checked :
    (speedupOf 2 2 = 1 ∧ efficiencyOf (speedupOf 2 2) 1 = 1) ∧
    speedupOf 3 0 = 0 :=
  ⟨(metrics_speedup_efficiency 2 2 0 1).2.2.2.2.1 (by norm_num),
   (metrics_speedup_efficiency 3 0 0 1).2.1 (by norm_num)⟩

/- ===================== Claim C6: warm-up, repeats, pairing ============= -/

/-- C6: `_benchmark` performs one warm-up `_run_once` call (index 0)
whose timing is discarded, then exactly `repeats` timed calls whose
readings 1..repeats form the returned ordered sample list, together with
their median, min, max and the repeat count; every call uses the same
`(threads, chunk_size, matrix_size)`.  And `do_POST` pairs a baseline
`_benchmark` run with thread count forced to 1 against a current run
with the requested (clamped) thread count, both sharing the clamped
chunk_size, matrix_size and repeats. -/
theorem benchmark_runs_and_pairs (elapsed : ℕ → ℚ) (threads cs ms : ℤ)
    (repeats : ℕ) :
    ((_benchmark elapsed threads cs ms repeats).1.times.length = repeats ∧
     (∀ j, j < repeats →
       (_benchmark elapsed threads cs ms repeats).1.times.getD j 0 =
         elapsed (j + 1)) ∧
     (_benchmark elapsed threads cs ms repeats).1.median =
       pymedian (_benchmark elapsed threads cs ms repeats).1.times ∧
     (_benchmark elapsed threads cs ms repeats).1.min =
       pyListMin (_benchmark elapsed threads cs ms repeats).1.times ∧
     (_benchmark elapsed threads cs ms repeats).1.max =
       pyListMax (_benchmark elapsed threads cs ms repeats).1.times ∧
     (_benchmark elapsed threads cs ms repeats).1.repeats = (repeats : ℤ) ∧
     (_benchmark elapsed threads cs ms repeats).2.length = repeats + 1 ∧
     (∀ pc ∈ (_benchmark elapsed threads cs ms repeats).2,
       pc = ⟨threads, cs, ms⟩)) ∧
    (∀ elB elC data,
      (run_do_POST elB elC data).baseline =
        (_benchmark elB 1 (run_do_POST elB elC data).config.chunk_size
          (run_do_POST elB elC data).config.matrix_size
          (run_do_POST elB elC data).config.repeats.toNat).1 ∧
      (run_do_POST elB elC data).current =
        (_benchmark elC (run_do_POST elB elC data).config.thread_count
          (run_do_POST elB elC data).config.chunk_size
          (run_do_POST elB elC data).config.matrix_size
          (run_do_POST elB elC data).config.repeats.toNat).1 ∧
      (run_do_POST elB elC data).baseline.repeats =
        (run_do_POST elB elC data).current.repeats) := by
  refine ⟨⟨?_, ?_, rfl, rfl, rfl, rfl, ?_, ?_⟩,
    fun elB elC data => ⟨rfl, rfl, rfl⟩⟩
  · show ((List.range repeats).map (fun j => elapsed (j + 1))).length = repeats
    rw [List.length_map, List.length_range]
  · intro j hj
    show ((List.range repeats).map (fun j => elapsed (j + 1))).getD j 0 =
      elapsed (j + 1)
    rw [List.getD_eq_getElem?_getD, List.getElem?_map, List.getElem?_range hj]
    rfl
  · show ((List.range repeats).map
      (fun _ => (⟨threads, cs, ms⟩ : PassCall))).length + 1 = repeats + 1
    rw [List.length_map, List.length_range]
  · intro pc hpc
    rcases List.mem_cons.mp hpc with rfl | hpc
    · rfl
    · obtain ⟨j, _, rfl⟩ := List.mem_map.mp hpc
      rfl

/-- Witness for C6: with the identity timing oracle and repeats = 3, the
sample list has length 3, its first sample is the reading of call 1 (the
warm-up reading of call 0 is discarded), and 4 passes are performed. -/
theorem benchmark_runs_and_pairs_checked :
    (_benchmark (fun k => (k : ℚ)) 4 128 1024 3).1.times.length = 3 ∧
    (_benchmark (fun k => (k : ℚ)) 4 128 1024 3).1.times.getD 0 0 =
      ((0 + 1 : ℕ) : ℚ) ∧
    (_benchmark (fun k => (k : ℚ)) 4 128 1024 3).2.length = 3 + 1 :=
  ⟨(benchmark_runs_and_pairs (fun k => (k : ℚ)) 4 128 1024 3).1.1,
   (benchmark_runs_and_pairs (fun k => (k : ℚ)) 4 128 1024 3).1.2.1 0
     (by decide),
   (benchmark_runs_and_pairs (fun k => (k : ℚ)) 4 128 1024 3).1.2.2.2.2.2.2.1⟩

/- ===================== Helper lemmas: fault propagation ================ -/

lemma gatherResults_spec (outcomes : List (Except String Unit)) :
    gatherResults outcomes =
      (match firstFault outcomes with
       | some e => Except.error e
       | Option.none => Except.ok ()) := by
  induction outcomes with
  | nil => rfl
  | cons o rest ih =>
    cases o with
    | error e => rfl
    | ok u => exact ih

lemma runOncePass_fault {outcomes : List (Except String Unit)} {e : String}
    (t : ℚ) (h : firstFault outcomes = some e) :
    runOncePass outcomes t = Except.error e := by
  rw [runOncePass, gatherResults_spec, h]

lemma runOncePass_clean {outcomes : List (Except String Unit)} (t : ℚ)
    (h : firstFault outcomes = Option.none) :
    runOncePass outcomes t = Except.ok t := by
  rw [runOncePass, gatherResults_spec, h]

lemma timedPasses_succ (tasks : ℕ → List (Except String Unit))
    (elapsed : ℕ → ℚ) (j count : ℕ) :
    timedPasses tasks elapsed j (count + 1) =
      (match runOncePass (tasks j) (elapsed j) with
       | Except.error e => Except.error e
       | Except.ok t =>
         (timedPasses tasks elapsed (j + 1) count).map (fun ts => t :: ts)) :=
  rfl

lemma timedPasses_ok_iff (tasks : ℕ → List (Except String Unit))
    (elapsed : ℕ → ℚ) :
    ∀ count start,
      (∃ ts, timedPasses tasks elapsed start count = Except.ok ts) ↔
      (∀ j, start ≤ j → j < start + count →
        firstFault (tasks j) = Option.none) := by
  intro count
  induction count with
  | zero =>
    intro start
    constructor
    · intro _ j h1 h2
      omega
    · intro _
      exact ⟨[], rfl⟩
  | succ cnt ih =>
    intro start
    rcases hf : firstFault (tasks start) with _ | e
    · have hpass := runOncePass_clean (elapsed start) hf
      constructor
      · rintro ⟨ts, hts⟩ j h1 h2
        rcases Nat.eq_or_lt_of_le h1 with rfl | hlt
        · exact hf
        · rw [timedPasses_succ, hpass] at hts
          rcases hrec : timedPasses tasks elapsed (start + 1) cnt with e' | ts'
          · rw [hrec] at hts
            exact Except.noConfusion hts
          · exact (ih (start + 1)).mp ⟨ts', hrec⟩ j (by omega) (by omega)
      · intro hall
        obtain ⟨ts', hts'⟩ := (ih (start + 1)).mpr
          (fun j h1 h2 => hall j (by omega) (by omega))
        refine ⟨elapsed start :: ts', ?_⟩
        rw [timedPasses_succ, hpass, hts']
        rfl
    · have hpass := runOncePass_fault (elapsed start) hf
      constructor
      · rintro ⟨ts, hts⟩
        rw [timedPasses_succ, hpass] at hts
        exact Except.noConfusion hts
      · intro hall
        have := hall start (le_refl _) (by omega)
        rw [hf] at this
        exact Option.noConfusion this

lemma benchmarkE_unfold (tasks : ℕ → List (Except String Unit))
    (elapsed : ℕ → ℚ) (threads cs ms : ℤ) (repeats : ℕ) :
    benchmarkE tasks elapsed threads cs ms repeats =
      (match runOncePass (tasks 0) (elapsed 0) with
       | Except.error e => Except.error e
       | Except.ok _ =>
         (timedPasses tasks elapsed 1 repeats).map (fun times =>
           { times := times
             median := pymedian times
             min := pyListMin times
             max := pyListMax times
             repeats := (repeats : ℤ) })) :=
  rfl

lemma benchmarkE_ok_iff (tasks : ℕ → List (Except String Unit))
    (elapsed : ℕ → ℚ) (threads cs ms : ℤ) (repeats : ℕ) :
    (∃ b, benchmarkE tasks elapsed threads cs ms repeats = Except.ok b) ↔
    (∀ j, j ≤ repeats → firstFault (tasks j) = Option.none) := by
  rcases hf : firstFault (tasks 0) with _ | e
  · have hpass := runOncePass_clean (elapsed 0) hf
    constructor
    · rintro ⟨b, hb⟩ j hj
      rcases Nat.eq_zero_or_pos j with rfl | hpos
      · exact hf
      · rw [benchmarkE_unfold, hpass] at hb
        rcases hrec : timedPasses tasks elapsed 1 repeats with e' | ts'
        · rw [hrec] at hb
          exact Except.noConfusion hb
        · exact (timedPasses_ok_iff tasks elapsed repeats 1).mp ⟨ts', hrec⟩ j
            (by omega) (by omega)
    · intro hall
      obtain ⟨ts', hts'⟩ := (timedPasses_ok_iff tasks elapsed repeats 1).mpr
        (fun j h1 h2 => hall j (by omega))
      refine ⟨⟨ts', pymedian ts', pyListMin ts', pyListMax ts',
        (repeats : ℤ)⟩, ?_⟩
      rw [benchmarkE_unfold, hpass, hts']
      rfl
  · have hpass := runOncePass_fault (elapsed 0) hf
    constructor
    · rintro ⟨b, hb⟩
      rw [benchmarkE_unfold, hpass] at hb
      exact Except.noConfusion hb
    · intro hall
      have := hall 0 (Nat.zero_le _)
      rw [hf] at this
      exact Option.noConfusion this

/- ===================== Claim C8: fault propagation ===================== -/

/-- C8: the barrier loop surfaces exactly the first-observed task fault
(`gatherResults` equals the first fault in completion order, success
only when no task faulted); a faulted pass raises instead of returning a
timing; and if any chunk task of any pass (warm-up or timed, baseline or
current run) faults, the whole `do_POST` call answers a single 500 error
response - it never retries and never returns a 200 report, so no
partial benchmark result is ever reported as success. -/
theorem dispatch_fault_propagation (outcomes : List (Except String Unit))
    (t : ℚ) :
    (gatherResults outcomes =
      (match firstFault outcomes with
       | some e => Except.error e
       | Option.none => Except.ok ())) ∧
    (∀ e, firstFault outcomes = some e →
      runOncePass outcomes t = Except.error e) ∧
    (∀ tasksBase tasksCur elB elC data,
      ((∃ j, j ≤ (_clamp_int data.repeats 1 15 5).toNat ∧
          firstFault (tasksBase j) ≠ Option.none) ∨
       (∃ j, j ≤ (_clamp_int data.repeats 1 15 5).toNat ∧
          firstFault (tasksCur j) ≠ Option.none)) →
      (∃ e, run_do_POST_E tasksBase tasksCur elB elC data =
        HttpResponse.err 500 e) ∧
      (∀ report, run_do_POST_E tasksBase tasksCur elB elC data ≠
        HttpResponse.ok report)) := by
  refine ⟨gatherResults_spec outcomes, fun e h => runOncePass_fault t h, ?_⟩
  intro tasksBase tasksCur elB elC data hfault
  rcases hb : benchmarkE tasksBase elB 1 (_clamp_int data.chunk_size 1 4096 128)
      (_clamp_int data.matrix_size 128 4096 1024)
      (_clamp_int data.repeats 1 15 5).toNat with e | base
  · have hres : run_do_POST_E tasksBase tasksCur elB elC data =
        HttpResponse.err 500 e := by
      simp only [run_do_POST_E]
      rw [hb]
    refine ⟨⟨e, hres⟩, fun report hcontra => ?_⟩
    rw [hres] at hcontra
    exact HttpResponse.noConfusion hcontra
  · have hbase := (benchmarkE_ok_iff tasksBase elB 1
      (_clamp_int data.chunk_size 1 4096 128)
      (_clamp_int data.matrix_size 128 4096 1024)
      (_clamp_int data.repeats 1 15 5).toNat).mp ⟨base, hb⟩
    rcases hfault with ⟨j, hj, hne⟩ | ⟨j, hj, hne⟩
    · exact absurd (hbase j hj) hne
    · rcases hc : benchmarkE tasksCur elC (_clamp_int data.thread_count 1 64 4)
          (_clamp_int data.chunk_size 1 4096 128)
          (_clamp_int data.matrix_size 128 4096 1024)
          (_clamp_int data.repeats 1 15 5).toNat with e | cur
      · have hres : run_do_POST_E tasksBase tasksCur elB elC data =
            HttpResponse.err 500 e := by
          simp only [run_do_POST_E]
          rw [hb, hc]
        refine ⟨⟨e, hres⟩, fun report hcontra => ?_⟩
        rw [hres] at hcontra
        exact HttpResponse.noConfusion hcontra
      · have hcur := (benchmarkE_ok_iff tasksCur elC
          (_clamp_int data.thread_count 1 64 4)
          (_clamp_int data.chunk_size 1 4096 128)
          (_clamp_int data.matrix_size 128 4096 1024)
          (_clamp_int data.repeats 1 15 5).toNat).mp ⟨cur, hc⟩
        exact absurd (hcur j hj) hne

/-- Error message used by the fault-injection witness. -/
def boomMsg : String := "boom"

/-- Fault injection for witnesses: every pass has one faulted task. -/
def faultyTasks : ℕ → List (Except String Unit) :=
  fun _ => [Except.error boomMsg]

/-- Fault injection for witnesses: every pass has one clean task. -/
def cleanTasks : ℕ → List (Except String Unit) :=
  fun _ => [Except.ok ()]

/-- Timing oracle used by witnesses. -/
def zeroElapsed : ℕ → ℚ := fun _ => 0

/-- Request with all four fields missing, used by witnesses. -/
def emptyRaw : RawConfig :=
  ⟨RawValue.none, RawValue.none, RawValue.none, RawValue.none⟩

/-- Witness for C8: with a clean baseline run and a faulted task in the
current run, the handler answers a 500 error and no 200 report. -/
theorem dispatch_fault_propagation_checked :
    (∃ e, run_do_POST_E cleanTasks faultyTasks zeroElapsed zeroElapsed
      emptyRaw = HttpResponse.err 500 e) ∧
    (∀ report, run_do_POST_E cleanTasks faultyTasks zeroElapsed zeroElapsed
      emptyRaw ≠ HttpResponse.ok report) :=
  (dispatch_fault_propagation [] 0).2.2 cleanTasks faultyTasks zeroElapsed
    zeroElapsed emptyRaw (Or.inr ⟨0, by decide, by decide⟩)
